import Mathlib

/-
Verification development for the cryptodb_alarm repository
(src/bot.py, src/eprint_fetcher.py, src/translator.py).

Python strings are modelled as lists of characters (`Str`), so that every
operation is a structural recursion the kernel can evaluate.  Python datetime
values are modelled as an absolute instant (seconds, as an integer) together
with a display offset in minutes; aware-datetime comparison in Python compares
instants, and `astimezone` changes only the display offset but raises
`OverflowError` when the target wall time falls outside the representable
datetime range (years 1 to 9999).  Network and standard-library collaborators
(the OAI endpoint, `datetime.fromisoformat`, `datetime.strptime`, the keyword
page fetch, the LLM call) are passed in as explicit arguments, mirroring their
call sites in the source.
-/

namespace CryptodbAlarm

/-- Python `str` modelled as a list of characters. -/
abbrev Str := List Char

/-- Python `str.strip()`: drop whitespace from both ends. -/
def pyStrip (s : Str) : Str :=
  ((s.dropWhile Char.isWhitespace).reverse.dropWhile Char.isWhitespace).reverse

/-- Python `str.split(sep)` for a one-character separator: split at every
occurrence, keeping empty segments (so `"".split(c) = [""]`). -/
def splitOnChar (c : Char) : Str → List Str
  | [] => [[]]
  | a :: rest =>
    let r := splitOnChar c rest
    if a = c then [] :: r
    else
      match r with
      | [] => [[a]]
      | h :: t => (a :: h) :: t

/-- Python `str.replace(old, new)` for a one-character pattern. -/
def replaceChar (c : Char) (rep : Str) : Str → Str
  | [] => []
  | a :: rest =>
    if a = c then rep ++ replaceChar c rep rest
    else a :: replaceChar c rep rest

/-- Python `int(s)` on canonical decimal digit strings: `some n` when the
string is a non-empty run of digits, `none` otherwise (where Python raises). -/
def pyInt? (s : Str) : Option Nat :=
  if s ≠ [] ∧ s.all Char.isDigit then
    some (s.foldl (fun n c => n * 10 + (c.toNat - 48)) 0)
  else none

/-- Aware Python datetime: absolute instant in seconds and a display offset in
minutes.  Comparison of aware datetimes in Python compares instants. -/
structure DateTime where
  instant : Int
  offsetMin : Int
deriving DecidableEq

/-- The fixed UTC+9 offset of `KST = timezone(timedelta(hours=9))`, in minutes. -/
def KST_OFFSET : Int := 540

/-- Epoch seconds of the wall time of `datetime.min` (0001-01-01T00:00:00)
read as UTC: the smallest representable wall time. -/
def wallMinSec : Int := -62135596800

/-- Epoch seconds of the wall time of `datetime.max` (9999-12-31T23:59:59,
ignoring the sub-second part, which is below this model's granularity) read as
UTC: the largest representable wall time. -/
def wallMaxSec : Int := 253402300799

/-- Python `dt.astimezone(KST)` on an aware datetime: same instant, display
offset set to UTC+9 — but it raises `OverflowError` (modelled as `none`) when
the resulting UTC+9 wall time, `instant` plus nine hours, falls outside the
representable datetime range. -/
def astimezoneKST (dt : DateTime) : Option DateTime :=
  if wallMinSec ≤ dt.instant + 60 * KST_OFFSET ∧ dt.instant + 60 * KST_OFFSET ≤ wallMaxSec then
    some ⟨dt.instant, KST_OFFSET⟩
  else none

/-- Python `datetime.min.replace(tzinfo=KST)`: wall time 0001-01-01T00:00:00 at
the +09:00 offset, i.e. instant -62135596800 - 32400 seconds from the epoch. -/
def dtMinKST : DateTime :=
  ⟨-62135629200, KST_OFFSET⟩

/-- The `Paper` dataclass of src/eprint_fetcher.py. -/
structure Paper where
  id : Str
  title : Str
  authors : List Str
  abstract : Str
  categories : List Str
  keywords : List Str
  url : Str
  pdf_url : Str
  published_date : Option DateTime
deriving DecidableEq

/-- Sort key used both in `EPrintFetcher.fetch_since` and in `main_async`:
`p.published_date or datetime.min.replace(tzinfo=KST)`, compared as an
instant. -/
def sortKey (p : Paper) : Int :=
  (p.published_date.getD dtMinKST).instant

/-- Boolean comparison corresponding to Python sorting papers by `sortKey`. -/
def paperLE (p q : Paper) : Bool :=
  decide (sortKey p ≤ sortKey q)

/-- Python `papers.sort(key=lambda p: p.published_date or datetime.min.replace(tzinfo=KST))`. -/
def sortPapers (ps : List Paper) : List Paper :=
  ps.mergeSort paperLE

/-- The post-filter of `EPrintFetcher.fetch_since`:
`paper.published_date and paper.published_date >= since`. -/
def sincePred (since : DateTime) (p : Paper) : Bool :=
  match p.published_date with
  | some d => decide (since.instant ≤ d.instant)
  | none => false

/-- `EPrintFetcher.fetch_since`, given the already-harvested lazy sequence:
keep papers whose `published_date` is present and at least `since`, then sort
oldest first. -/
def fetch_since (since : DateTime) (harvested : List Paper) : List Paper :=
  sortPapers (harvested.filter (sincePred since))

/-- `main_async` dedup step: `[p for p in papers if p.id not in posted_ids]`. -/
def new_papers (posted_ids : List Str) (papers : List Paper) : List Paper :=
  papers.filter (fun p => ! posted_ids.contains p.id)

/-- The list the delivery loop of `main_async` iterates over: the deduplicated
papers sorted oldest first (`new_papers.sort(key=...)`). -/
def delivery_list (posted_ids : List Str) (papers : List Paper) : List Paper :=
  sortPapers (new_papers posted_ids papers)

/-- One raw OAI-PMH record as seen by `EPrintFetcher._parse_record` after XML
navigation: header status, header identifier text (empty when absent), whether
an `oai_dc:dc` metadata block exists, and the extracted text fields. -/
structure RawRecord where
  deleted : Bool
  identifier : Str
  hasMetadata : Bool
  title : Str
  abstract : Str
  dateStr : Str
  authors : List Str
  categories : List Str
deriving DecidableEq

/-- `EPrintFetcher.BASE_URL`. -/
def BASE_URL : Str := ("https://eprint.iacr.org".toList)

/-- `EPrintFetcher._parse_record`.  The collaborators are explicit arguments:
`fromiso` models `datetime.fromisoformat` on aware ISO strings, `strp` models
`datetime.strptime(s, %Y-%m-%d)` returning the wall-clock seconds of midnight
of that date (which `.replace(tzinfo=timezone.utc)` anchors as a UTC instant),
and `kw` models the network call `self.fetch_keywords(eprint_id)`.  The
`published_date` variable is assigned the parsed value first and converted by
`astimezone(KST)` second, inside one `try`: if the parse raises, the variable
keeps its initial `None`; if only `astimezone` raises (`OverflowError` near
the datetime bounds), the blanket `except` keeps the already-assigned
unconverted value, modelled by `(astimezoneKST dt).getD dt`. -/
def parse_record (fromiso : Str → Option DateTime) (strp : Str → Option Int)
    (kw : Str → List Str) (r : RawRecord) : Option Paper :=
  if r.deleted then none
  else
    let eprint_id :=
      if r.identifier = [] then ([] : Str)
      else (splitOnChar ':' r.identifier).getLastD []
    if !r.hasMetadata then none
    else
      let published_date :=
        if r.dateStr = [] then none
        else if r.dateStr.contains 'T' then
          match fromiso (replaceChar 'Z' ("+00:00".toList) r.dateStr) with
          | none => none
          | some dt => some ((astimezoneKST dt).getD dt)
        else
          match strp r.dateStr with
          | none => none
          | some w => some ((astimezoneKST ⟨w, 0⟩).getD ⟨w, 0⟩)
      some
        { id := eprint_id
          title := r.title
          authors := r.authors
          abstract := r.abstract
          categories := r.categories
          keywords := kw eprint_id
          url := BASE_URL ++ '/' :: eprint_id
          pdf_url := BASE_URL ++ '/' :: eprint_id ++ (".pdf".toList)
          published_date := published_date }

/-- One successfully fetched and parsed OAI-PMH response document: an optional
error code (the `code` attribute of an `oai:error` element), the record list,
and the text of the `resumptionToken` element when present. -/
structure OAIPage where
  error : Option Str
  records : List RawRecord
  token : Option Str
deriving DecidableEq

/-- One endpoint interaction outcome in `EPrintFetcher._harvest`: either the
request or the XML parse raised (transport failure) or a parsed page. -/
inductive OAIResponse where
  | transportFailure : OAIResponse
  | page : OAIPage → OAIResponse
deriving DecidableEq

/-- The request parameter sets `_harvest` sends: the first-page form
`{verb, metadataPrefix, from}` or the continuation form `{verb, resumptionToken}`. -/
inductive OAIRequest where
  | initial : Str → Str → Str → OAIRequest
  | resume : Str → Str → OAIRequest
deriving DecidableEq

/-- Request built at the top of the `_harvest` loop: `if resumption_token:`
re-checks truthiness of the stored (already stripped) token, so both `None`
and the empty string rebuild the initial
`{verb, metadataPrefix, from}` parameter set. -/
def mkRequest (fromDate : Str) : Option Str → OAIRequest
  | none => .initial ("ListRecords".toList) ("oai_dc".toList) fromDate
  | some t =>
    if t = [] then .initial ("ListRecords".toList) ("oai_dc".toList) fromDate
    else .resume ("ListRecords".toList) t

/-- The papers `_harvest` yields from one page:
`for record in records: if (paper := parse_record(record)): yield paper`. -/
def pagePapers (fromiso : Str → Option DateTime) (strp : Str → Option Int)
    (kw : Str → List Str) (p : OAIPage) : List Paper :=
  p.records.filterMap (parse_record fromiso strp kw)

/-- The `while True` loop of `EPrintFetcher._harvest`, run against a finite
script of endpoint responses (one response per request; a script that runs out
behaves like a transport failure).  Returns the requests issued and the papers
yielded.  On a transport failure or any `oai:error` element the loop breaks;
after yielding a page it continues exactly when the `resumptionToken` element
has non-empty text, and the next request carries the stripped token. -/
def harvestGo (fromiso : Str → Option DateTime) (strp : Str → Option Int)
    (kw : Str → List Str) (fromDate : Str) (tok : Option Str) :
    List OAIResponse → List OAIRequest × List Paper
  | [] => ([mkRequest fromDate tok], [])
  | .transportFailure :: _ => ([mkRequest fromDate tok], [])
  | .page p :: rest =>
    match p.error with
    | some _ => ([mkRequest fromDate tok], [])
    | none =>
      let ps := pagePapers fromiso strp kw p
      match p.token with
      | some t =>
        if t ≠ [] then
          let next := harvestGo fromiso strp kw fromDate (some (pyStrip t)) rest
          (mkRequest fromDate tok :: next.1, ps ++ next.2)
        else ([mkRequest fromDate tok], ps)
      | none => ([mkRequest fromDate tok], ps)

/-- `EPrintFetcher._harvest(from_date)`: the loop started with no token. -/
def harvest (fromiso : Str → Option DateTime) (strp : Str → Option Int)
    (kw : Str → List Str) (fromDate : Str) (rs : List OAIResponse) :
    List OAIRequest × List Paper :=
  harvestGo fromiso strp kw fromDate none rs

/-- Sort key of `save_posted_ids`:
`lambda x: (x.split('/')[0], int(x.split('/')[1]))`, the year segment as a
string and the sequence segment as an integer. -/
def idSortKey (x : Str) : Str × Nat :=
  ((splitOnChar '/' x).headD [], (pyInt? ((splitOnChar '/' x).getD 1 [])).getD 0)

/-- Comparison corresponding to Python sorting ids by the tuple `idSortKey`
(lexicographic: string first, then number). -/
def idLE (x y : Str) : Bool :=
  decide (toLex (idSortKey x) ≤ toLex (idSortKey y))

/-- Shape of the persisted JSON object: `updated_at` and the `posted_ids` key
(`none` models a JSON object without that key, read via `data.get`). -/
structure StoreData where
  updated_at : Str
  posted_ids : Option (List Str)
deriving DecidableEq

/-- State of `posted_papers.json` on disk: absent, unreadable or not
well-formed JSON, or a well-formed JSON object. -/
inductive FileState where
  | missing : FileState
  | corrupt : FileState
  | valid : StoreData → FileState
deriving DecidableEq

/-- `load_posted_ids` of src/bot.py: a missing file yields the empty set; a
well-formed file yields `set(data.get('posted_ids', []))`; an unreadable or
malformed file makes `json.load` (or `open`) raise, and nothing catches the
exception, modelled as `Except.error`. -/
def load_posted_ids : FileState → Except Str (List Str)
  | .missing => .ok []
  | .corrupt => .error ("JSONDecodeError".toList)
  | .valid d => .ok (d.posted_ids.getD [])

/-- `save_posted_ids` of src/bot.py: write `updated_at` and the ids sorted by
`(year-string, sequence-number)`. -/
def save_posted_ids (now : Str) (ids : List Str) : FileState :=
  .valid ⟨now, some (ids.mergeSort idLE)⟩

/-- Well-formed id `<year>/<sequence-number>`: exactly one slash and a decimal
sequence segment, the inputs on which Python's `save_posted_ids` key function
does not raise. -/
def wellFormedId (x : Str) : Prop :=
  (splitOnChar '/' x).length = 2 ∧ (pyInt? ((splitOnChar '/' x).getD 1 [])).isSome

instance (x : Str) : Decidable (wellFormedId x) := by
  unfold wellFormedId
  infer_instance

/-- Result dictionary of `Translator._parse_translation` /
`Translator.translate_paper`. -/
structure TransResult where
  title : Str
  abstract : Str
  keywords : List Str
deriving DecidableEq

/-- The values the `current_field` variable holds across loop iterations in
`_parse_translation` (it is set to the keywords marker only transiently inside
the KEYWORDS branch and reset to None before the iteration ends). -/
inductive TransField where
  | title : TransField
  | abstract : TransField
deriving DecidableEq

/-- Loop state of `_parse_translation`: the result dictionary, the active
field, and the accumulated content lines. -/
structure PState where
  result : TransResult
  field : Option TransField
  content : List Str
deriving DecidableEq

/-- `result[current_field] = value` for the two accumulating fields. -/
def setField (r : TransResult) : TransField → Str → TransResult
  | .title, s => { r with title := s }
  | .abstract, s => { r with abstract := s }

/-- The flush step `if current_field and current_content:
result[current_field] = "\n".join(current_content).strip()`. -/
def flushState (s : PState) : TransResult :=
  match s.field with
  | some f =>
    if s.content ≠ [] then setField s.result f (pyStrip (List.intercalate ['\n'] s.content))
    else s.result
  | none => s.result

/-- The comma-split of a KEYWORDS line remainder:
`[k.strip() for k in keywords_str.split(",") if k.strip()]`. -/
def splitKeywords (s : Str) : List Str :=
  ((splitOnChar ',' s).map pyStrip).filter (fun k => k ≠ [])

/-- One iteration of the line loop of `_parse_translation`. -/
def transStep (s : PState) (line : Str) : PState :=
  if ("TITLE:".toList).isPrefixOf line then
    { result := flushState s, field := some .title, content := [pyStrip (line.drop 6)] }
  else if ("ABSTRACT:".toList).isPrefixOf line then
    { result := flushState s, field := some .abstract, content := [pyStrip (line.drop 9)] }
  else if ("KEYWORDS:".toList).isPrefixOf line then
    let r := flushState s
    { result := { r with keywords := splitKeywords (pyStrip (line.drop 9)) }
      field := none
      content := s.content }
  else
    match s.field with
    | some _ => { s with content := s.content ++ [line] }
    | none => s

/-- `Translator._parse_translation`, factored over the already-split lines. -/
def parse_translation_lines (lines : List Str) (orig_title orig_abstract : Str)
    (orig_keywords : List Str) : TransResult :=
  flushState (lines.foldl transStep ⟨⟨orig_title, orig_abstract, orig_keywords⟩, none, []⟩)

/-- `Translator._parse_translation`: split `response.strip()` on newlines and
run the line loop, then flush the last open field. -/
def parse_translation (response orig_title orig_abstract : Str)
    (orig_keywords : List Str) : TransResult :=
  parse_translation_lines (splitOnChar '\n' (pyStrip response)) orig_title orig_abstract
    orig_keywords

/-- `Translator.translate_paper`, with the LLM chat call modelled by its
outcome: any raised exception yields the originals; a returned message content
is parsed by `_parse_translation`. -/
def translate_paper (api : Except Str Str) (title abstract : Str)
    (keywords : List Str) : TransResult :=
  match api with
  | .error _ => ⟨title, abstract, keywords⟩
  | .ok response => parse_translation response title abstract keywords

/-! Concrete fixtures used to instantiate hypothesis-bearing theorems. -/

/-- Fixture paper with no published date. -/
def pNone : Paper :=
  ⟨("2025/1".toList), ("t1".toList), [], [], [], [], [], [], none⟩

/-- Fixture paper with an early published date. -/
def pEarly : Paper :=
  ⟨("2025/2".toList), ("t2".toList), [], [], [], [], [], [], some ⟨100, KST_OFFSET⟩⟩

/-- Fixture paper with a late published date. -/
def pLate : Paper :=
  ⟨("2025/3".toList), ("t3".toList), [], [], [], [], [], [], some ⟨200, KST_OFFSET⟩⟩

/-- Fixture oracle for `datetime.fromisoformat`. -/
def isoW : Str → Option DateTime :=
  fun s => if s = ("2025-01-02T03:04:05+00:00".toList) then some ⟨1735787045, 0⟩ else none

/-- Fixture oracle for `datetime.strptime` with the date-only format. -/
def strpW : Str → Option Int :=
  fun s => if s = ("2025-01-02".toList) then some 1735776000 else none

/-- Fixture keyword enricher. -/
def kwW : Str → List Str := fun _ => []

/-- Fixture raw record with no date string. -/
def rec1 : RawRecord :=
  ⟨false, ("oai:x:2025/1".toList), true, ("t1".toList), [], [], [], []⟩

/-- Fixture deleted raw record. -/
def recDel : RawRecord :=
  ⟨true, [], true, [], [], [], [], []⟩

/-- Fixture page with a continuation token. -/
def pg1 : OAIPage := ⟨none, [rec1], some ("T1tok".toList)⟩

/-- Fixture page with a continuation token surrounded by whitespace. -/
def pg2 : OAIPage := ⟨none, [recDel, rec1], some (" T2tok ".toList)⟩

/-- Fixture terminal page without a token. -/
def pg3 : OAIPage := ⟨none, [rec1], none⟩

/-- Fixture page whose resumption token text is non-empty but whitespace-only,
so it strips to the empty string. -/
def pgWS : OAIPage := ⟨none, [rec1], some ("   ".toList)⟩

/-- Fixture id set for the persistence round trip. -/
def idsW : List Str := [("2025/9".toList), ("2024/10".toList)]

/-! Helper lemmas. -/

theorem paperLE_trans :
    ∀ a b c : Paper, paperLE a b = true → paperLE b c = true → paperLE a c = true := by
  intro a b c
  simp only [paperLE, decide_eq_true_eq]
  exact le_trans

theorem paperLE_total : ∀ a b : Paper, (paperLE a b || paperLE b a) = true := by
  intro a b
  simp only [paperLE, Bool.or_eq_true, decide_eq_true_eq]
  exact le_total _ _

theorem idLE_trans :
    ∀ a b c : Str, idLE a b = true → idLE b c = true → idLE a c = true := by
  intro a b c
  simp only [idLE, decide_eq_true_eq]
  exact le_trans

theorem idLE_total : ∀ a b : Str, (idLE a b || idLE b a) = true := by
  intro a b
  simp only [idLE, Bool.or_eq_true, decide_eq_true_eq]
  exact le_total _ _

theorem mem_sortPapers {p : Paper} {l : List Paper} : p ∈ sortPapers l ↔ p ∈ l := by
  simp [sortPapers, List.mem_mergeSort]

theorem harvestGo_run (fromiso : Str → Option DateTime) (strp : Str → Option Int)
    (kw : Str → List Str) (fromDate : Str) :
    ∀ (ps : List OAIPage) (tok : Option Str) (last : OAIPage) (extra : List OAIResponse),
    (∀ p ∈ ps, p.error = none ∧ pyStrip (p.token.getD []) ≠ []) →
    ((last.error = none ∧ last.token.getD [] = []) ∨
      last.error = some ("noRecordsMatch".toList)) →
    harvestGo fromiso strp kw fromDate tok ((ps ++ [last]).map OAIResponse.page ++ extra) =
      (mkRequest fromDate tok ::
        ps.map (fun p => OAIRequest.resume ("ListRecords".toList) (pyStrip (p.token.getD []))),
       ps.flatMap (pagePapers fromiso strp kw) ++
         (if last.error = none then pagePapers fromiso strp kw last else [])) := by
  intro ps
  induction ps with
  | nil =>
    intro tok last extra _ hlast
    rcases hlast with ⟨he, ht⟩ | he
    · cases htok : last.token with
      | none => simp [harvestGo, he, htok]
      | some t =>
        have ht2 : t = [] := by simpa [htok] using ht
        subst ht2
        simp [harvestGo, he, htok]
    · simp [harvestGo, he]
  | cons p ps ih =>
    intro tok last extra hps hlast
    obtain ⟨he, ht⟩ := hps p (List.mem_cons_self _ _)
    cases htok : p.token with
    | none => rw [htok] at ht; exact absurd rfl ht
    | some t =>
      have hstrip : pyStrip t ≠ [] := by rw [htok] at ht; simpa using ht
      have htne : t ≠ [] := fun h => hstrip (by rw [h]; rfl)
      have ihr := ih (some (pyStrip t)) last extra
        (fun q hq => hps q (List.mem_cons_of_mem _ hq)) hlast
      simp only [List.cons_append, List.map_cons, List.map_append] at *
      simp only [harvestGo, he, htok]
      rw [if_pos htne, ihr]
      simp [mkRequest, hstrip, List.flatMap_cons, List.append_assoc]

theorem foldl_transStep_inv (P : PState → Prop) :
    ∀ (lines : List Str) (s : PState), P s →
      (∀ s2 l, l ∈ lines → P s2 → P (transStep s2 l)) →
      P (lines.foldl transStep s) := by
  intro lines
  induction lines with
  | nil => intro s hs _; exact hs
  | cons l ls ih =>
    intro s hs hstep
    exact ih _ (hstep s l (List.mem_cons_self _ _) hs)
      (fun s2 l2 h2 => hstep s2 l2 (List.mem_cons_of_mem _ h2))

theorem setField_keywords (r : TransResult) (f : TransField) (v : Str) :
    (setField r f v).keywords = r.keywords := by
  cases f <;> rfl

theorem setField_title_of_ne (r : TransResult) (f : TransField) (v : Str)
    (h : f ≠ TransField.title) : (setField r f v).title = r.title := by
  cases f
  · exact absurd rfl h
  · rfl

theorem setField_abstract_of_ne (r : TransResult) (f : TransField) (v : Str)
    (h : f ≠ TransField.abstract) : (setField r f v).abstract = r.abstract := by
  cases f
  · rfl
  · exact absurd rfl h

theorem flushState_keywords (s : PState) : (flushState s).keywords = s.result.keywords := by
  unfold flushState
  cases s.field with
  | none => rfl
  | some f =>
    by_cases hc : s.content ≠ []
    · simp only [if_pos hc, setField_keywords]
    · simp only [if_neg hc]

theorem flushState_title (s : PState) (h : s.field ≠ some TransField.title) :
    (flushState s).title = s.result.title := by
  unfold flushState
  cases hf : s.field with
  | none => rfl
  | some f =>
    have hf2 : f ≠ TransField.title := by
      rintro rfl
      exact h hf
    by_cases hc : s.content ≠ []
    · simp only [if_pos hc, setField_title_of_ne _ _ _ hf2]
    · simp only [if_neg hc]

theorem flushState_abstract (s : PState) (h : s.field ≠ some TransField.abstract) :
    (flushState s).abstract = s.result.abstract := by
  unfold flushState
  cases hf : s.field with
  | none => rfl
  | some f =>
    have hf2 : f ≠ TransField.abstract := by
      rintro rfl
      exact h hf
    by_cases hc : s.content ≠ []
    · simp only [if_pos hc, setField_abstract_of_ne _ _ _ hf2]
    · simp only [if_neg hc]

theorem transStep_title_inv (t0 : Str) (s : PState) (l : Str)
    (hl : ¬ ("TITLE:".toList).isPrefixOf l)
    (h : s.field ≠ some TransField.title ∧ s.result.title = t0) :
    (transStep s l).field ≠ some TransField.title ∧ (transStep s l).result.title = t0 := by
  unfold transStep
  rw [if_neg hl]
  by_cases h2 : ("ABSTRACT:".toList).isPrefixOf l
  · rw [if_pos h2]
    exact ⟨by simp, by rw [flushState_title s h.1]; exact h.2⟩
  · rw [if_neg h2]
    by_cases h3 : ("KEYWORDS:".toList).isPrefixOf l
    · rw [if_pos h3]
      exact ⟨by simp, by simp only; rw [flushState_title s h.1]; exact h.2⟩
    · rw [if_neg h3]
      cases hf : s.field with
      | none => simpa [hf] using h
      | some f => exact ⟨by simpa [hf] using h.1, by simpa [hf] using h.2⟩

theorem transStep_abstract_inv (a0 : Str) (s : PState) (l : Str)
    (hl : ¬ ("ABSTRACT:".toList).isPrefixOf l)
    (h : s.field ≠ some TransField.abstract ∧ s.result.abstract = a0) :
    (transStep s l).field ≠ some TransField.abstract ∧
      (transStep s l).result.abstract = a0 := by
  unfold transStep
  by_cases h1 : ("TITLE:".toList).isPrefixOf l
  · rw [if_pos h1]
    exact ⟨by simp, by rw [flushState_abstract s h.1]; exact h.2⟩
  · rw [if_neg h1, if_neg hl]
    by_cases h3 : ("KEYWORDS:".toList).isPrefixOf l
    · rw [if_pos h3]
      exact ⟨by simp, by simp only; rw [flushState_abstract s h.1]; exact h.2⟩
    · rw [if_neg h3]
      cases hf : s.field with
      | none => simpa [hf] using h
      | some f => exact ⟨by simpa [hf] using h.1, by simpa [hf] using h.2⟩

theorem transStep_keywords_inv (s : PState) (l : Str)
    (hl : ¬ ("KEYWORDS:".toList).isPrefixOf l) :
    (transStep s l).result.keywords = s.result.keywords := by
  unfold transStep
  by_cases h1 : ("TITLE:".toList).isPrefixOf l
  · rw [if_pos h1]
    exact flushState_keywords s
  · rw [if_neg h1]
    by_cases h2 : ("ABSTRACT:".toList).isPrefixOf l
    · rw [if_pos h2]
      exact flushState_keywords s
    · rw [if_neg h2, if_neg hl]
      cases hf : s.field with
      | none => rfl
      | some f => rfl

theorem transStep_no_marker (s : PState) (l : Str)
    (hf : s.field = none)
    (h1 : ¬ ("TITLE:".toList).isPrefixOf l)
    (h2 : ¬ ("ABSTRACT:".toList).isPrefixOf l)
    (h3 : ¬ ("KEYWORDS:".toList).isPrefixOf l) :
    transStep s l = s := by
  unfold transStep
  rw [if_neg h1, if_neg h2, if_neg h3, hf]

theorem transStep_keywords_line (s : PState) (line : Str)
    (hline : ("KEYWORDS:".toList).isPrefixOf line) :
    (transStep s line).result.keywords = splitKeywords (pyStrip (line.drop 9)) := by
  obtain ⟨rest, hr⟩ := List.isPrefixOf_iff_prefix.mp hline
  subst hr
  have hT : ("TITLE:".toList).isPrefixOf (("KEYWORDS:".toList) ++ rest) = false := rfl
  have hA : ("ABSTRACT:".toList).isPrefixOf (("KEYWORDS:".toList) ++ rest) = false := rfl
  unfold transStep
  rw [if_neg (by simp [hT]), if_neg (by simp [hA]),
    if_pos (List.isPrefixOf_iff_prefix.mpr (List.prefix_append _ _))]

/-! Claim theorems. -/

/-- C1: every paper the delivery loop of `main_async` iterates over has an id
that was not in the posted-id set loaded at run start: the loop runs over the
sorted `new_papers`, which filters out every id in `posted_ids`. -/
theorem delivery_excludes_posted (posted_ids : List Str) (papers : List Paper)
    (p : Paper) (hp : p ∈ delivery_list posted_ids papers) : p.id ∉ posted_ids := by
  have h2 := List.mem_filter.mp (mem_sortPapers.mp hp)
  simpa using h2.2

theorem delivery_excludes_posted_witness :
    pEarly ∈ delivery_list [("2025/1".toList)] [pLate, pEarly] ∧
    pEarly.id ∉ [("2025/1".toList)] := by
  have h : pEarly ∈ delivery_list [("2025/1".toList)] [pLate, pEarly] := by
    simp only [delivery_list, sortPapers, List.mem_mergeSort]
    decide
  exact ⟨h, delivery_excludes_posted _ _ _ h⟩

/-- C2: `fetch_since` returns exactly the harvested papers whose
`published_date` is present and at least the cutoff: membership is equivalent
to having such a date, and the result is a permutation of the filtered
harvest (so nothing else is added or dropped, with multiplicity). -/
theorem fetch_since_exact (since : DateTime) (harvested : List Paper) :
    (∀ p, p ∈ fetch_since since harvested ↔
      p ∈ harvested ∧ ∃ d, p.published_date = some d ∧ since.instant ≤ d.instant) ∧
    (fetch_since since harvested).Perm (harvested.filter (sincePred since)) := by
  constructor
  · intro p
    unfold fetch_since
    rw [mem_sortPapers, List.mem_filter]
    constructor
    · rintro ⟨hmem, hpred⟩
      refine ⟨hmem, ?_⟩
      unfold sincePred at hpred
      cases hd : p.published_date with
      | none => rw [hd] at hpred; simp at hpred
      | some d => rw [hd] at hpred; exact ⟨d, rfl, by simpa using hpred⟩
    · rintro ⟨hmem, d, hd, hle⟩
      refine ⟨hmem, ?_⟩
      unfold sincePred
      rw [hd]
      simpa using hle
  · unfold fetch_since sortPapers
    exact List.mergeSort_perm _ _

/-- C3: the list handed to delivery is sorted non-decreasing by
`published_date`, papers with an absent date coming before all papers that
have one.  The hypothesis states that every present date lies strictly after
the `datetime.min.replace(tzinfo=KST)` sentinel, which holds for every date
Python date parsing can produce: any parseable date has year at least 1, so
its instant is at least 0001-01-01T00:00:00Z, nine hours after the
sentinel instant (wall time 0001-01-01T00:00 at +09:00). -/
theorem delivery_list_sorted (posted_ids : List Str) (papers : List Paper)
    (hmin : ∀ p ∈ papers, ∀ d ∈ p.published_date, dtMinKST.instant < d.instant) :
    (delivery_list posted_ids papers).Pairwise (fun p q =>
      match p.published_date, q.published_date with
      | none, _ => True
      | some d, some e => d.instant ≤ e.instant
      | some _, none => False) := by
  have hsorted := List.sorted_mergeSort paperLE_trans paperLE_total
    (new_papers posted_ids papers)
  rw [delivery_list, sortPapers]
  refine hsorted.imp_of_mem ?_
  intro p q hp hq hle
  have hp2 : p ∈ papers := (List.mem_filter.mp (List.mem_mergeSort.mp hp)).1
  have hle2 : sortKey p ≤ sortKey q := by simpa [paperLE] using hle
  cases hpd : p.published_date with
  | none => simp
  | some d =>
    cases hqd : q.published_date with
    | some e =>
      simp only
      have h1 : sortKey p = d.instant := by simp [sortKey, hpd]
      have h2 : sortKey q = e.instant := by simp [sortKey, hqd]
      omega
    | none =>
      simp only
      have h1 := hmin p hp2 d (by simp [hpd, Option.mem_def])
      have h2 : sortKey p = d.instant := by simp [sortKey, hpd]
      have h3 : sortKey q = dtMinKST.instant := by simp [sortKey, hqd]
      simp [dtMinKST] at h1 h3
      omega

theorem delivery_list_sorted_witness :
    (∀ p ∈ [pLate, pEarly, pNone], ∀ d ∈ p.published_date,
      dtMinKST.instant < d.instant) ∧
    (delivery_list [] [pLate, pEarly, pNone]).Pairwise (fun p q =>
      match p.published_date, q.published_date with
      | none, _ => True
      | some d, some e => d.instant ≤ e.instant
      | some _, none => False) :=
  ⟨by decide, delivery_list_sorted [] [pLate, pEarly, pNone] (by decide)⟩

/-- C4 counterexample: a page whose resumption token text is non-empty but
whitespace-only (so it is a "non-empty token" as the claim is stated) keeps
harvesting going, but `resumption_token = text.strip()` is then the empty
string, so the loop-top `if resumption_token:` check rebuilds the initial
`{verb, metadataPrefix, from}` parameter set for the next request instead of a
token-only request: both requests sent are the initial form. -/
theorem harvest_whitespace_token_counterexample :
    pgWS.token.getD [] ≠ [] ∧
    (harvest isoW strpW kwW ("2025-01-01".toList)
        [OAIResponse.page pgWS, OAIResponse.page pg3]).1 =
      [OAIRequest.initial ("ListRecords".toList) ("oai_dc".toList) ("2025-01-01".toList),
       OAIRequest.initial ("ListRecords".toList) ("oai_dc".toList) ("2025-01-01".toList)] := by
  decide

/-- C4 amended: on a response script made of pages whose resumption tokens are
non-empty after whitespace-stripping, closed by a page without a non-empty
token or by a `noRecordsMatch` error, `_harvest` yields the non-deleted
parseable records of every page in page order, sends the first request with
verb, metadataPrefix and from, sends every later request with only the verb
and the preceding page's stripped token, and stops there even if further
responses would be available (the `extra` suffix is never consumed).  With no
intermediate pages and a `noRecordsMatch` first page the yielded sequence is
empty.  (A token that is non-empty but whitespace-only instead makes the next
request repeat the initial parameter set — see the counterexample.) -/
theorem harvest_pagination (fromiso : Str → Option DateTime) (strp : Str → Option Int)
    (kw : Str → List Str) (fromDate : Str)
    (ps : List OAIPage) (last : OAIPage) (extra : List OAIResponse)
    (hps : ∀ p ∈ ps, p.error = none ∧ pyStrip (p.token.getD []) ≠ [])
    (hlast : (last.error = none ∧ last.token.getD [] = []) ∨
      last.error = some ("noRecordsMatch".toList)) :
    harvest fromiso strp kw fromDate ((ps ++ [last]).map OAIResponse.page ++ extra) =
      (OAIRequest.initial ("ListRecords".toList) ("oai_dc".toList) fromDate ::
        ps.map (fun p => OAIRequest.resume ("ListRecords".toList) (pyStrip (p.token.getD []))),
       ps.flatMap (pagePapers fromiso strp kw) ++
         (if last.error = none then pagePapers fromiso strp kw last else [])) := by
  have h := harvestGo_run fromiso strp kw fromDate ps none last extra hps hlast
  simpa [harvest, mkRequest] using h

theorem harvest_pagination_witness :
    (∀ p ∈ [pg1, pg2], p.error = none ∧ pyStrip (p.token.getD []) ≠ []) ∧
    ((pg3.error = none ∧ pg3.token.getD [] = []) ∨
      pg3.error = some ("noRecordsMatch".toList)) ∧
    harvest isoW strpW kwW ("2025-01-01".toList)
        (([pg1, pg2] ++ [pg3]).map OAIResponse.page ++ [OAIResponse.page pg1]) =
      (OAIRequest.initial ("ListRecords".toList) ("oai_dc".toList) ("2025-01-01".toList) ::
        [pg1, pg2].map
          (fun p => OAIRequest.resume ("ListRecords".toList) (pyStrip (p.token.getD []))),
       [pg1, pg2].flatMap (pagePapers isoW strpW kwW) ++
         (if pg3.error = none then pagePapers isoW strpW kwW pg3 else [])) :=
  ⟨by decide, by decide,
    harvest_pagination isoW strpW kwW ("2025-01-01".toList) [pg1, pg2] pg3
      [OAIResponse.page pg1] (by decide) (by decide)⟩

/-- C5: saving a set of well-formed ids and loading it back yields the same
set of ids (membership is unchanged), and the persisted list is sorted
ascending by the key (year segment as a string, sequence segment as a
number). -/
theorem posted_ids_round_trip (now : Str) (ids : List Str)
    (_hwf : ∀ x ∈ ids, wellFormedId x) :
    load_posted_ids (save_posted_ids now ids) = .ok (ids.mergeSort idLE) ∧
    (∀ x, x ∈ ids.mergeSort idLE ↔ x ∈ ids) ∧
    (ids.mergeSort idLE).Pairwise
      (fun x y => toLex (idSortKey x) ≤ toLex (idSortKey y)) := by
  refine ⟨rfl, fun x => List.mem_mergeSort, ?_⟩
  have h := List.sorted_mergeSort idLE_trans idLE_total ids
  exact h.imp (fun hxy => by simpa [idLE] using hxy)

theorem posted_ids_round_trip_witness :
    (∀ x ∈ idsW, wellFormedId x) ∧
    (load_posted_ids (save_posted_ids [] idsW) = .ok (idsW.mergeSort idLE) ∧
      (∀ x, x ∈ idsW.mergeSort idLE ↔ x ∈ idsW) ∧
      (idsW.mergeSort idLE).Pairwise
        (fun x y => toLex (idSortKey x) ≤ toLex (idSortKey y))) :=
  ⟨by decide, posted_ids_round_trip [] idsW (by decide)⟩

/-- C6 counterexample: on a corrupt (unreadable or malformed-JSON) state file,
`load_posted_ids` does not return the empty set: `json.load` raises and the
function has no handler, so the error propagates. -/
theorem load_corrupt_counterexample :
    load_posted_ids FileState.corrupt = Except.error ("JSONDecodeError".toList) ∧
    load_posted_ids FileState.corrupt ≠ Except.ok [] :=
  ⟨rfl, fun h => Except.noConfusion h⟩

/-- C6 amended: loading with a missing state file returns the empty set, but a
corrupt state file makes the load raise (the exception propagates and ends the
run); only the missing-file case is handled. -/
theorem load_missing_or_corrupt :
    load_posted_ids FileState.missing = Except.ok [] ∧
    ∃ e, load_posted_ids FileState.corrupt = Except.error e :=
  ⟨rfl, ⟨_, rfl⟩⟩

/-- C7: the translation response parser maps
`TITLE: A\nABSTRACT: B\nKEYWORDS: x, y` to title `A`, abstract `B` and
keywords `[x, y]`; maps any response none of whose lines starts with a marker
to the original three fields unchanged; and accumulates non-marker lines into
the active field, so `ABSTRACT: line1\nline2` yields the abstract
`line1\nline2`. -/
theorem parse_translation_cases (t a : Str) (k : List Str) :
    parse_translation (("TITLE: A\nABSTRACT: B\nKEYWORDS: x, y").toList) t a k =
      ⟨("A".toList), ("B".toList), [("x".toList), ("y".toList)]⟩ ∧
    (∀ response,
      (∀ l ∈ splitOnChar '\n' (pyStrip response),
        ¬ ("TITLE:".toList).isPrefixOf l ∧ ¬ ("ABSTRACT:".toList).isPrefixOf l ∧
          ¬ ("KEYWORDS:".toList).isPrefixOf l) →
      parse_translation response t a k = ⟨t, a, k⟩) ∧
    (parse_translation (("ABSTRACT: line1\nline2").toList) t a k).abstract =
      ("line1\nline2".toList) := by
  refine ⟨rfl, ?_, rfl⟩
  intro response hmk
  unfold parse_translation parse_translation_lines
  have hid := foldl_transStep_inv (fun s => s = ⟨⟨t, a, k⟩, none, []⟩)
    (splitOnChar '\n' (pyStrip response)) _ rfl
    (fun s2 l hl hP => by
      obtain ⟨h1, h2, h3⟩ := hmk l hl
      rw [hP, transStep_no_marker _ _ rfl h1 h2 h3])
  rw [hid]
  rfl

theorem parse_translation_cases_witness :
    (∀ l ∈ splitOnChar '\n' (pyStrip ("hello\nworld".toList)),
      ¬ ("TITLE:".toList).isPrefixOf l ∧ ¬ ("ABSTRACT:".toList).isPrefixOf l ∧
        ¬ ("KEYWORDS:".toList).isPrefixOf l) ∧
    parse_translation ("hello\nworld".toList) ("T0".toList) ("A0".toList) [] =
      ⟨("T0".toList), ("A0".toList), []⟩ := by
  have h : ∀ l ∈ splitOnChar '\n' (pyStrip ("hello\nworld".toList)),
      ¬ ("TITLE:".toList).isPrefixOf l ∧ ¬ ("ABSTRACT:".toList).isPrefixOf l ∧
        ¬ ("KEYWORDS:".toList).isPrefixOf l := by decide
  exact ⟨h, (parse_translation_cases ("T0".toList) ("A0".toList) []).2.1 _ h⟩

/-- C8: translation is best-effort per field.  A failed call yields the
originals; an empty response yields the originals; and if a field's marker
never starts a line of the response, that field of the result equals the
original value. -/
theorem translate_paper_fallback (t a : Str) (k : List Str) :
    (∀ e, translate_paper (Except.error e) t a k = ⟨t, a, k⟩) ∧
    translate_paper (Except.ok []) t a k = ⟨t, a, k⟩ ∧
    (∀ response,
      (∀ l ∈ splitOnChar '\n' (pyStrip response), ¬ ("TITLE:".toList).isPrefixOf l) →
      (translate_paper (Except.ok response) t a k).title = t) ∧
    (∀ response,
      (∀ l ∈ splitOnChar '\n' (pyStrip response), ¬ ("ABSTRACT:".toList).isPrefixOf l) →
      (translate_paper (Except.ok response) t a k).abstract = a) ∧
    (∀ response,
      (∀ l ∈ splitOnChar '\n' (pyStrip response), ¬ ("KEYWORDS:".toList).isPrefixOf l) →
      (translate_paper (Except.ok response) t a k).keywords = k) := by
  refine ⟨fun e => rfl, rfl, ?_, ?_, ?_⟩
  · intro response hmk
    show (parse_translation response t a k).title = t
    unfold parse_translation parse_translation_lines
    have hinv := foldl_transStep_inv
      (fun s => s.field ≠ some TransField.title ∧ s.result.title = t)
      (splitOnChar '\n' (pyStrip response)) ⟨⟨t, a, k⟩, none, []⟩ ⟨by simp, rfl⟩
      (fun s2 l hl hP => transStep_title_inv t s2 l (hmk l hl) hP)
    rw [flushState_title _ hinv.1]
    exact hinv.2
  · intro response hmk
    show (parse_translation response t a k).abstract = a
    unfold parse_translation parse_translation_lines
    have hinv := foldl_transStep_inv
      (fun s => s.field ≠ some TransField.abstract ∧ s.result.abstract = a)
      (splitOnChar '\n' (pyStrip response)) ⟨⟨t, a, k⟩, none, []⟩ ⟨by simp, rfl⟩
      (fun s2 l hl hP => transStep_abstract_inv a s2 l (hmk l hl) hP)
    rw [flushState_abstract _ hinv.1]
    exact hinv.2
  · intro response hmk
    show (parse_translation response t a k).keywords = k
    unfold parse_translation parse_translation_lines
    have hinv := foldl_transStep_inv (fun s => s.result.keywords = k)
      (splitOnChar '\n' (pyStrip response)) ⟨⟨t, a, k⟩, none, []⟩ rfl
      (fun s2 l hl hP => by
        show (transStep s2 l).result.keywords = k
        rw [transStep_keywords_inv s2 l (hmk l hl)]
        exact hP)
    rw [flushState_keywords]
    exact hinv

theorem translate_paper_fallback_witness :
    (∀ l ∈ splitOnChar '\n' (pyStrip ("nothing here".toList)),
      ¬ ("TITLE:".toList).isPrefixOf l) ∧
    (∀ l ∈ splitOnChar '\n' (pyStrip ("nothing here".toList)),
      ¬ ("ABSTRACT:".toList).isPrefixOf l) ∧
    (∀ l ∈ splitOnChar '\n' (pyStrip ("nothing here".toList)),
      ¬ ("KEYWORDS:".toList).isPrefixOf l) ∧
    (translate_paper (Except.ok ("nothing here".toList)) ("T0".toList) ("A0".toList)
        [("k0".toList)]).title = ("T0".toList) ∧
    (translate_paper (Except.ok ("nothing here".toList)) ("T0".toList) ("A0".toList)
        [("k0".toList)]).abstract = ("A0".toList) ∧
    (translate_paper (Except.ok ("nothing here".toList)) ("T0".toList) ("A0".toList)
        [("k0".toList)]).keywords = [("k0".toList)] :=
  ⟨by decide, by decide, by decide,
    (translate_paper_fallback ("T0".toList) ("A0".toList) [("k0".toList)]).2.2.1 _ (by decide),
    (translate_paper_fallback ("T0".toList) ("A0".toList) [("k0".toList)]).2.2.2.1 _ (by decide),
    (translate_paper_fallback ("T0".toList) ("A0".toList) [("k0".toList)]).2.2.2.2 _ (by decide)⟩

/-- C10: once a line starting with `KEYWORDS:` is processed and no later line
starts with that marker, the keywords of the result are exactly the
comma-split, whitespace-trimmed, non-empty segments of that line's remainder,
replacing the original keywords; in particular a remainder of commas and
whitespace yields the empty keyword list. -/
theorem keywords_line_sets (pre post : List Str) (line : Str) (t a : Str) (k : List Str)
    (hline : ("KEYWORDS:".toList).isPrefixOf line)
    (hpost : ∀ l ∈ post, ¬ ("KEYWORDS:".toList).isPrefixOf l) :
    (parse_translation_lines (pre ++ line :: post) t a k).keywords =
      splitKeywords (pyStrip (line.drop 9)) := by
  unfold parse_translation_lines
  rw [List.foldl_append, List.foldl_cons, flushState_keywords]
  exact foldl_transStep_inv
    (fun s => s.result.keywords = splitKeywords (pyStrip (line.drop 9)))
    post _ (transStep_keywords_line _ _ hline)
    (fun s2 l hl hP => by
      show (transStep s2 l).result.keywords = splitKeywords (pyStrip (line.drop 9))
      rw [transStep_keywords_inv s2 l (hpost l hl)]
      exact hP)

theorem keywords_line_sets_witness :
    (("KEYWORDS:".toList).isPrefixOf ("KEYWORDS: , ,".toList) = true) ∧
    (∀ l ∈ ([("tail text".toList)] : List Str), ¬ ("KEYWORDS:".toList).isPrefixOf l) ∧
    (parse_translation_lines
        ([("intro".toList)] ++ ("KEYWORDS: , ,".toList) :: [("tail text".toList)])
        ("T0".toList) ("A0".toList) [("orig".toList)]).keywords =
      splitKeywords (pyStrip (("KEYWORDS: , ,".toList).drop 9)) ∧
    splitKeywords (pyStrip (("KEYWORDS: , ,".toList).drop 9)) = [] :=
  ⟨by decide, by decide,
    keywords_line_sets [("intro".toList)] [("tail text".toList)] _ _ _ _
      (by decide) (by decide),
    by decide⟩

end CryptodbAlarm
